import Mathlib

/-!
Verification of the core logic of `spryo9/literature-review-collector`
(`src/utils/cleaners.ts`): the coordinate-normalization routine
`parseCoordinates` and the CSV serialization routine `exportToCSV`.

JavaScript strings are modelled as Lean `String` (a list of characters);
JavaScript numbers are modelled as `ℚ` (the inputs the routines handle are
finite decimals, and none of the verified properties depend on binary
floating-point artifacts); the absent value (`undefined` / NaN results)
is modelled by `Option`.
-/

/-! ## Definitions translated from `src/utils/cleaners.ts` and `src/types.ts`,
with the spec-modelled RFC-4180 reader and concrete witness records. -/

/-- Characters removed by `String.prototype.trim()` that are relevant here
(ASCII whitespace).  After the cleaning filter of `parseCoordinates` no such
character remains, so only the ASCII cases matter. -/
def isJsWs (c : Char) : Bool :=
  c == ' ' || c == '\t' || c == '\n' || c == '\r' || c == '\x0b' || c == '\x0c'

/-- Model of `s.trim()`. -/
def jsTrim (s : String) : String :=
  ⟨((s.data.dropWhile isJsWs).reverse.dropWhile isJsWs).reverse⟩

/-- Model of `value.toString().replace(/[^\d.\-,]/g, '')`: keep only digits,
`.`, `-` and `,`. -/
def cleanCoord (s : String) : String :=
  ⟨s.data.filter (fun c => c.isDigit || c == '.' || c == '-' || c == ',')⟩

/-- The cleaned text `cleanVal` of `parseCoordinates`:
`value.toString().replace(/[^\d.\-,]/g, '').trim()`. -/
def cleanedOf (s : String) : String := jsTrim (cleanCoord s)

/-- Model of `String.prototype.includes(c)` for a single character. -/
def hasChar (s : String) (c : Char) : Bool := s.data.contains c

/-- Model of `String.prototype.startsWith(c)` for a single character. -/
def startsWithChar (s : String) (c : Char) : Bool :=
  match s.data with
  | [] => false
  | a :: _ => a == c

/-- Model of `String.prototype.split(sep)` for a single-character separator,
acting on the character list (JavaScript semantics: `"".split(",") = [""]`,
`"a,".split(",") = ["a", ""]`). -/
def jsSplitChars (sep : Char) : List Char → List (List Char)
  | [] => [[]]
  | a :: rest =>
    if a = sep then [] :: jsSplitChars sep rest
    else
      match jsSplitChars sep rest with
      | [] => [[a]]
      | h :: t => (a :: h) :: t

/-- Model of `s.split(sep)` for a single-character separator. -/
def jsSplit (sep : Char) (s : String) : List String :=
  (jsSplitChars sep s.data).map fun l => ⟨l⟩

/-- Numeric value of a decimal digit character. -/
def digitVal (c : Char) : Nat := c.toNat - '0'.toNat

/-- Natural number denoted by a list of decimal digit characters
(empty list denotes 0). -/
def digitsToNat (l : List Char) : Nat :=
  l.foldl (fun a c => 10 * a + digitVal c) 0

/-- The unsigned part of JavaScript `parseFloat`: longest prefix of the form
`digits [. digits]`, requiring at least one digit; anything after that prefix
is ignored.  `none` models NaN. -/
def parseUnsignedQ (l : List Char) : Option ℚ :=
  let ip := l.takeWhile Char.isDigit
  let rest := l.dropWhile Char.isDigit
  match rest with
  | '.' :: rest2 =>
    let fp := rest2.takeWhile Char.isDigit
    if ip.isEmpty && fp.isEmpty then none
    else some ((digitsToNat ip : ℚ) + (digitsToNat fp : ℚ) / (10 : ℚ) ^ fp.length)
  | _ => if ip.isEmpty then none else some (digitsToNat ip)

/-- Model of JavaScript `parseFloat` on the strings this program feeds it
(after cleaning they contain only digits, `.`, `-`, `,`, so the exponent and
`Infinity` forms of `parseFloat` cannot occur and are omitted): skip leading
whitespace, optional sign, then the longest numeric prefix; NaN is `none`. -/
def jsParseFloat (s : String) : Option ℚ :=
  match s.data.dropWhile isJsWs with
  | [] => none
  | c :: rest =>
    if c = '-' then (parseUnsignedQ rest).map (fun q => -q)
    else if c = '+' then parseUnsignedQ rest
    else parseUnsignedQ (c :: rest)

/-- Model of `parseFloat(x.toFixed(6))`: round to 6 decimal places. -/
def round6 (q : ℚ) : ℚ := (round (q * 1000000) : ℤ) / 1000000

/-- The input type of `parseCoordinates`
(`value: string | number | undefined`; the source also guards `null`). -/
inductive CoordInput where
  | undef
  | null
  | num (q : ℚ)
  | str (s : String)
deriving DecidableEq

/-- Translation of `parseCoordinates` from `src/utils/cleaners.ts`.
The source wraps the branch logic in `try { ... } catch { return undefined }`;
none of the operations inside (`includes`, `split`, `parseFloat`, arithmetic)
can throw, so the catch is unreachable and the translation is the `try` body.
The source's `.trim()` is kept (`cleanedOf`) although it is a no-op after the
cleaning filter removes all whitespace. -/
def parseCoordinates : CoordInput → Option ℚ
  | .undef => none
  | .null => none
  | .num q => some q
  | .str s =>
    if s = "" then none
    else
      let cleanVal := cleanedOf s
      if hasChar cleanVal ',' then
        let parts := (jsSplit ',' cleanVal).filterMap jsParseFloat
        if parts.length = 0 then none
        else some (round6 (parts.sum / (parts.length : ℚ)))
      else if hasChar cleanVal '-' && !startsWithChar cleanVal '-' then
        let parts := (jsSplit '-' cleanVal).filterMap jsParseFloat
        if parts.length = 2 then
          some (round6 ((parts.getD 0 0 + parts.getD 1 0) / 2))
        else jsParseFloat cleanVal
      else jsParseFloat cleanVal

/-- Decimal digits of the fractional part of a non-negative rational, most
significant first, stopping when the remainder is exactly zero or after
`fuel` digits. -/
def fracDigits : Nat → ℚ → List Char
  | 0, _ => []
  | fuel + 1, q =>
    if q = 0 then []
    else
      Char.ofNat ('0'.toNat + (q * 10).floor.toNat) :: fracDigits fuel (q * 10 - (q * 10).floor)

/-- Model of JavaScript `String(n)` for a number: integers print with no
decimal point, other values print sign, integer part, `.`, then fractional
digits.  The doubles this program stringifies are finite decimals (at most 17
significant digits), for which this is exact; the truncation fuel only
matters for rationals no double can hold. -/
def numToString (q : ℚ) : String :=
  if q.den = 1 then toString q.num
  else
    (if q < 0 then "-" else "") ++ toString |q|.floor ++ "." ++ ⟨fracDigits 17 (|q| - |q|.floor)⟩

/-- A scalar field value of a record (`string | number` in the source). -/
inductive JsVal where
  | str (s : String)
  | num (q : ℚ)
deriving DecidableEq

/-- Model of JavaScript `String(val)` on a present scalar. -/
def jsString : JsVal → String
  | .str s => s
  | .num q => numToString q

/-- Translation of the `ProcessedPaper` interface from `src/types.ts`:
the 33 optional schema fields of `ExtractedData` plus `id` and `rawText`.
Fields typed as string-literal unions in TypeScript (`Open_Access`,
`Scale`, `Soil_Status`, `Spectral_Region`, `Spectral_Library`) are modelled
as strings; `Longitude`/`Latitude` are `number | string` in the source and
keep the full scalar union. -/
structure ProcessedPaper where
  id : String := ""
  rawText : String := ""
  Year : Option ℚ := none
  Authors : Option String := none
  Title : Option String := none
  Journal : Option String := none
  Open_Access : Option String := none
  Scale : Option String := none
  Continent : Option String := none
  Country : Option String := none
  Longitude : Option JsVal := none
  Latitude : Option JsVal := none
  Sampling_Year : Option String := none
  Sampling_Design : Option String := none
  Sampling_Depth : Option String := none
  Soil_Status : Option String := none
  LULC : Option String := none
  Spectrometer : Option String := none
  Spectral_Region : Option String := none
  Spectral_Range_Val : Option String := none
  Spectral_Library : Option String := none
  Spectral_Preprocessing : Option String := none
  Transfer_Learning : Option String := none
  Target_Property : Option String := none
  No_Samples_Cal : Option ℚ := none
  No_Samples_Val : Option ℚ := none
  Split_Method : Option String := none
  Variable_Selection : Option String := none
  Calibration_Model : Option String := none
  Auxiliary_Predictors : Option String := none
  Validation_Type : Option String := none
  R2 : Option ℚ := none
  RMSE : Option ℚ := none
  RPIQ : Option ℚ := none
  r : Option ℚ := none
deriving DecidableEq

/-- The fixed header list of `exportToCSV` (33 column names, declared
order). -/
def headers : List String :=
  ["Year", "Authors", "Title", "Journal", "Open_Access",
   "Scale", "Continent", "Country", "Longitude", "Latitude",
   "Sampling_Year", "Sampling_Design", "Sampling_Depth", "Soil_Status", "LULC",
   "Spectrometer", "Spectral_Region", "Spectral_Range_Val", "Spectral_Library",
   "Spectral_Preprocessing", "Transfer_Learning",
   "Target_Property", "No_Samples_Cal", "No_Samples_Val", "Split_Method",
   "Variable_Selection", "Calibration_Model", "Auxiliary_Predictors",
   "Validation_Type", "R2", "RMSE", "RPIQ", "r"]

/-- Model of the source's dynamic property access `row[fieldName]`:
look a field up by name; names that denote no property yield absent.
Number-typed fields are injected into the scalar union. -/
def getField (p : ProcessedPaper) (fieldName : String) : Option JsVal :=
  match fieldName with
  | "Year" => p.Year.map JsVal.num
  | "Authors" => p.Authors.map JsVal.str
  | "Title" => p.Title.map JsVal.str
  | "Journal" => p.Journal.map JsVal.str
  | "Open_Access" => p.Open_Access.map JsVal.str
  | "Scale" => p.Scale.map JsVal.str
  | "Continent" => p.Continent.map JsVal.str
  | "Country" => p.Country.map JsVal.str
  | "Longitude" => p.Longitude
  | "Latitude" => p.Latitude
  | "Sampling_Year" => p.Sampling_Year.map JsVal.str
  | "Sampling_Design" => p.Sampling_Design.map JsVal.str
  | "Sampling_Depth" => p.Sampling_Depth.map JsVal.str
  | "Soil_Status" => p.Soil_Status.map JsVal.str
  | "LULC" => p.LULC.map JsVal.str
  | "Spectrometer" => p.Spectrometer.map JsVal.str
  | "Spectral_Region" => p.Spectral_Region.map JsVal.str
  | "Spectral_Range_Val" => p.Spectral_Range_Val.map JsVal.str
  | "Spectral_Library" => p.Spectral_Library.map JsVal.str
  | "Spectral_Preprocessing" => p.Spectral_Preprocessing.map JsVal.str
  | "Transfer_Learning" => p.Transfer_Learning.map JsVal.str
  | "Target_Property" => p.Target_Property.map JsVal.str
  | "No_Samples_Cal" => p.No_Samples_Cal.map JsVal.num
  | "No_Samples_Val" => p.No_Samples_Val.map JsVal.num
  | "Split_Method" => p.Split_Method.map JsVal.str
  | "Variable_Selection" => p.Variable_Selection.map JsVal.str
  | "Calibration_Model" => p.Calibration_Model.map JsVal.str
  | "Auxiliary_Predictors" => p.Auxiliary_Predictors.map JsVal.str
  | "Validation_Type" => p.Validation_Type.map JsVal.str
  | "R2" => p.R2.map JsVal.num
  | "RMSE" => p.RMSE.map JsVal.num
  | "RPIQ" => p.RPIQ.map JsVal.num
  | "r" => p.r.map JsVal.num
  | "id" => some (JsVal.str p.id)
  | "rawText" => some (JsVal.str p.rawText)
  | _ => none

/-- Model of `stringVal.replace(/"/g, '""')` on the character list. -/
def doubleQuoteChars : List Char → List Char
  | [] => []
  | c :: rest =>
    if c = '"' then '"' :: '"' :: doubleQuoteChars rest
    else c :: doubleQuoteChars rest

/-- Model of `stringVal.replace(/"/g, '""')`. -/
def escQuotes (s : String) : String := ⟨doubleQuoteChars s.data⟩

/-- Translation of the per-field body of `exportToCSV`: absent values emit
the empty string, a value whose string form contains a comma or double-quote
is emitted quoted with internal quotes doubled, anything else is emitted
as-is. -/
def csvCell (val : Option JsVal) : String :=
  match val with
  | none => ""
  | some v =>
    let stringVal := jsString v
    if hasChar stringVal ',' || hasChar stringVal '"' then
      "\"" ++ escQuotes stringVal ++ "\""
    else stringVal

/-- Model of `Array.prototype.join(sep)`. -/
def joinSep (sep : String) : List String → String
  | [] => ""
  | [x] => x
  | x :: xs => x ++ sep ++ joinSep sep xs

/-- One data row of the CSV: the cells for the 33 headers joined by `,`. -/
def rowLine (p : ProcessedPaper) : String :=
  joinSep "," (headers.map fun fieldName => csvCell (getField p fieldName))

/-- The `csvContent` string of `exportToCSV`: header line then one line per
record, joined by `\n`. -/
def csvContent (data : List ProcessedPaper) : String :=
  joinSep "\n" (joinSep "," headers :: data.map rowLine)

/-- Translation of `exportToCSV (data, filename)`.  The source's only effect
is building `csvContent` and triggering a browser download of it under
`filename`; that observable outcome is modelled as `some (content, filename)`.
`none` input models a null/undefined `data` argument (the source's `!data`
guard) and `none` output models the early `return` with no document
produced. -/
def exportToCSV (data : Option (List ProcessedPaper)) (filename : String) :
    Option (String × String) :=
  match data with
  | none => none
  | some l => if l.length = 0 then none else some (csvContent l, filename)

/-- The first line of a text: everything before the first `\n`. -/
def firstLine (s : String) : String := ⟨s.data.takeWhile (fun c => c != '\n')⟩

/-- Modelled from the spec (§4.2 steps 2–3): the cell a field value must
produce — absent emits the empty string, a string form containing a comma or
a double-quote is wrapped in double quotes with every internal double-quote
doubled, and any other value is emitted unquoted. -/
def specCellOf (val : Option JsVal) : String :=
  match val with
  | none => ""
  | some v =>
    if hasChar (jsString v) ',' || hasChar (jsString v) '"' then
      "\"" ++ escQuotes (jsString v) ++ "\""
    else jsString v

/-- The escaping `exportToCSV` applies to one cell's string form. -/
def escapeStr (s : String) : String :=
  if hasChar s ',' || hasChar s '"' then "\"" ++ escQuotes s ++ "\"" else s

/-- The string representation a record's field carries into the export:
absent fields read back as the empty string. -/
def reprOf (p : ProcessedPaper) (fieldName : String) : String :=
  match getField p fieldName with
  | none => ""
  | some v => jsString v

/-- True of characters an unquoted CSV field may contain (reader side). -/
def csvPlain (c : Char) : Bool := !(c == ',' || c == '\n')

/-- Modelled from the spec: the quoted-field body scanner of a standard
RFC-4180 CSV reader.  Having consumed an opening `"`, it consumes up to the
closing `"`, turning each doubled `""` into one `"`; `none` means an
unterminated quoted field. -/
def parseQuoted : List Char → Option (List Char × List Char)
  | [] => none
  | c :: rest =>
    if c = '"' then
      match rest with
      | '"' :: rest2 => (parseQuoted rest2).map fun q => ('"' :: q.1, q.2)
      | _ => some ([], rest)
    else (parseQuoted rest).map fun q => (c :: q.1, q.2)

/-- Modelled from the spec: one field of a standard RFC-4180 CSV reader — a
quoted field when the input starts with `"`, otherwise everything up to the
next `,` or line break. -/
def parseField (l : List Char) : Option (List Char × List Char) :=
  match l with
  | [] => some ([], [])
  | c :: rest =>
    if c = '"' then parseQuoted rest
    else some ((c :: rest).takeWhile csvPlain, (c :: rest).dropWhile csvPlain)

/-- Modelled from the spec: one record of a standard RFC-4180 CSV reader —
fields separated by commas.  `fuel` bounds the recursion (one unit per
field). -/
def parseRecord : Nat → List Char → Option (List String × List Char)
  | 0, _ => none
  | fuel + 1, l =>
    (parseField l).bind fun fr =>
      if fr.2.head? = some ',' then
        (parseRecord fuel fr.2.tail).map fun q => (⟨fr.1⟩ :: q.1, q.2)
      else some ([⟨fr.1⟩], fr.2)

/-- Modelled from the spec: a standard RFC-4180 CSV reader over a whole
document — LF-separated records (as the exporter emits), empty input giving
no records; `none` is a parse error. -/
def parseCsv (rf : Nat) : Nat → List Char → Option (List (List String))
  | 0, _ => none
  | fuel + 1, l =>
    if l.isEmpty then some []
    else
      (parseRecord rf l).bind fun rr =>
        if rr.2.isEmpty then some [rr.1]
        else if rr.2.head? = some '\n' then
          (parseCsv rf fuel rr.2.tail).map fun rows => rr.1 :: rows
        else none

/-- The reader at its entry point, with fuel ample for the input length. -/
def rfcParseCsv (s : String) : Option (List (List String)) :=
  parseCsv (s.data.length + 1) (s.data.length + 1) s.data

def paperA : ProcessedPaper :=
  { id := "a1", rawText := "raw A", Title := some "Same Title", Authors := some "Smith, J." }

def paperB : ProcessedPaper :=
  { id := "b2", rawText := "raw B", Title := some "Same Title", Authors := some "Smith, J." }

/-- A record whose `Title` contains a line break. -/
def paperNl : ProcessedPaper := { id := "n1", Title := some "Line1\nLine2" }

/-- A record with ordinary field values (no line breaks). -/
def paperW : ProcessedPaper :=
  { id := "w1", rawText := "txt", Title := some "Clean Title", Authors := some "Smith, J." }

/-! ## Supporting lemmas -/

lemma hasChar_empty (c : Char) : hasChar "" c = false := rfl

lemma startsWithChar_empty (c : Char) : startsWithChar "" c = false := rfl

lemma ne_empty_of_hasChar {s : String} {c : Char} (h : hasChar s c = true) : s ≠ "" := by
  intro he
  rw [he, hasChar_empty] at h
  exact Bool.noConfusion h

lemma ne_empty_of_startsWithChar {s : String} {c : Char}
    (h : startsWithChar s c = true) : s ≠ "" := by
  intro he
  rw [he, startsWithChar_empty] at h
  exact Bool.noConfusion h

lemma data_append (a b : String) : (a ++ b).data = a.data ++ b.data := by
  cases a
  cases b
  rfl

lemma joinSep_cons2 (sep x y : String) (l : List String) :
    joinSep sep (x :: y :: l) = x ++ sep ++ joinSep sep (y :: l) := rfl

lemma takeWhile_append_stop (p : Char → Bool) (l1 l2 : List Char) (x : Char)
    (h1 : ∀ c ∈ l1, p c = true) (h2 : p x = false) :
    (l1 ++ x :: l2).takeWhile p = l1 := by
  induction l1 with
  | nil => simp [List.takeWhile_cons, h2]
  | cons a t ih =>
    rw [List.cons_append, List.takeWhile_cons, if_pos (h1 a (List.mem_cons_self a t)),
      ih fun c hc => h1 c (List.mem_cons_of_mem a hc)]

lemma takeWhile_all (p : Char → Bool) (l : List Char) (h : ∀ c ∈ l, p c = true) :
    l.takeWhile p = l := by
  induction l with
  | nil => rfl
  | cons a t ih =>
    rw [List.takeWhile_cons, if_pos (h a (List.mem_cons_self a t)),
      ih fun c hc => h c (List.mem_cons_of_mem a hc)]

lemma dropWhile_all (p : Char → Bool) (l : List Char) (h : ∀ c ∈ l, p c = true) :
    l.dropWhile p = [] := by
  induction l with
  | nil => rfl
  | cons a t ih =>
    rw [List.dropWhile_cons, if_pos (h a (List.mem_cons_self a t)),
      ih fun c hc => h c (List.mem_cons_of_mem a hc)]

lemma dropWhile_append_stop (p : Char → Bool) (l1 l2 : List Char) (x : Char)
    (h1 : ∀ c ∈ l1, p c = true) (h2 : p x = false) :
    (l1 ++ x :: l2).dropWhile p = x :: l2 := by
  induction l1 with
  | nil => simp [List.dropWhile_cons, h2]
  | cons a t ih =>
    rw [List.cons_append, List.dropWhile_cons, if_pos (h1 a (List.mem_cons_self a t)),
      ih fun c hc => h1 c (List.mem_cons_of_mem a hc)]

lemma firstLine_append (a b : String) (ha : ∀ c ∈ a.data, (c != '\n') = true) :
    firstLine (a ++ "\n" ++ b) = a := by
  have hd : (a ++ "\n" ++ b).data = a.data ++ '\n' :: b.data := by
    rw [data_append, data_append]
    simp
  show (⟨(a ++ "\n" ++ b).data.takeWhile (fun c => c != '\n')⟩ : String) = a
  rw [hd, takeWhile_append_stop _ _ _ _ ha (by decide)]

lemma not_mem_of_hasChar_false {s : String} {c : Char} (h : hasChar s c = false) :
    c ∉ s.data := by
  intro hm
  unfold hasChar at h
  simp [List.elem_iff] at h
  exact h hm

lemma csvCell_getField (p : ProcessedPaper) (f : String) :
    csvCell (getField p f) = escapeStr (reprOf p f) := by
  unfold csvCell reprOf escapeStr
  cases getField p f with
  | none => rfl
  | some v => rfl

lemma head_shape {rest : List Char} {c : Char} (h : rest.head? = some c) :
    ∃ t, rest = c :: t := by
  cases rest with
  | nil => simp at h
  | cons a t =>
    rw [List.head?_cons] at h
    injection h with h1
    exact ⟨t, by rw [h1]⟩

lemma parseQuoted_cons_ne (c : Char) (l : List Char) (hc : c ≠ '"') :
    parseQuoted (c :: l) = (parseQuoted l).map fun q => (c :: q.1, q.2) := by
  cases l with
  | nil =>
    rw [parseQuoted.eq_3 c [] fun r h => List.noConfusion h, if_neg hc]
  | cons a t =>
    by_cases ha : a = '"'
    · subst ha
      rw [parseQuoted.eq_2, if_neg hc]
    · refine (parseQuoted.eq_3 c (a :: t) fun r h => ?_).trans (if_neg hc)
      injection h with h1 h2
      exact ha h1

lemma parseQuoted_open_close (rest : List Char) (h : rest.head? ≠ some '"') :
    parseQuoted ('"' :: rest) = some ([], rest) := by
  cases rest with
  | nil => rw [parseQuoted.eq_3 _ _ fun r hh => List.noConfusion hh, if_pos rfl]
  | cons a t =>
    have ha : a ≠ '"' := fun he => h (by rw [List.head?_cons, he])
    refine (parseQuoted.eq_3 _ _ fun r hh => ?_).trans (if_pos rfl)
    injection hh with h1 h2
    exact ha h1

lemma parseQuoted_open_escape (l : List Char) :
    parseQuoted ('"' :: '"' :: l) = (parseQuoted l).map fun q => ('"' :: q.1, q.2) := by
  rw [parseQuoted.eq_2, if_pos rfl]

lemma parseQuoted_escaped (s : List Char) (rest : List Char)
    (hrest : rest.head? ≠ some '"') :
    parseQuoted (doubleQuoteChars s ++ '"' :: rest) = some (s, rest) := by
  induction s with
  | nil =>
    show parseQuoted ('"' :: rest) = some ([], rest)
    exact parseQuoted_open_close rest hrest
  | cons c t ih =>
    by_cases hc : c = '"'
    · subst hc
      show parseQuoted ('"' :: '"' :: (doubleQuoteChars t ++ '"' :: rest)) = _
      rw [parseQuoted_open_escape, ih]
      rfl
    · rw [show doubleQuoteChars (c :: t) = c :: doubleQuoteChars t from by
        rw [doubleQuoteChars]
        exact if_neg hc]
      rw [List.cons_append, parseQuoted_cons_ne c _ hc, ih]
      rfl

lemma parseField_escaped (cell : String) (rest : List Char)
    (hnl : '\n' ∉ cell.data)
    (hrest : rest = [] ∨ rest.head? = some ',' ∨ rest.head? = some '\n') :
    parseField ((escapeStr cell).data ++ rest) = some (cell.data, rest) := by
  have hrq : rest.head? ≠ some '"' := by
    rcases hrest with h | h | h <;> rw [h] <;> simp
  by_cases hq : (hasChar cell ',' || hasChar cell '"') = true
  · have hdata : (escapeStr cell).data = '"' :: (doubleQuoteChars cell.data ++ ['"']) := by
      unfold escapeStr
      rw [if_pos hq, data_append, data_append]
      show ('"' :: []) ++ (escQuotes cell).data ++ ('"' :: []) = _
      simp [escQuotes]
    rw [hdata, List.cons_append, List.append_assoc, parseField, if_pos rfl]
    exact parseQuoted_escaped cell.data rest hrq
  · obtain ⟨hq1, hq2⟩ : hasChar cell ',' = false ∧ hasChar cell '"' = false := by
      constructor <;> revert hq <;>
        cases h1 : hasChar cell ',' <;> cases h2 : hasChar cell '"' <;> simp
    have hplain : ∀ c ∈ cell.data, csvPlain c = true := by
      intro c hcm
      have hc1 : c ≠ ',' := fun he => not_mem_of_hasChar_false hq1 (he ▸ hcm)
      have hc2 : c ≠ '\n' := fun he => hnl (he ▸ hcm)
      simp [csvPlain, hc1, hc2]
    have hesc : escapeStr cell = cell := by
      unfold escapeStr
      exact if_neg hq
    rw [hesc]
    cases hcd : cell.data with
    | nil =>
      rw [List.nil_append]
      rcases hrest with h | h | h
      · rw [h]
        rfl
      · obtain ⟨t, rfl⟩ := head_shape h
        simp [parseField, csvPlain, List.takeWhile_cons, List.dropWhile_cons]
      · obtain ⟨t, rfl⟩ := head_shape h
        simp [parseField, csvPlain, List.takeWhile_cons, List.dropWhile_cons]
    | cons c0 ct =>
      have hc0 : c0 ≠ '"' := fun he =>
        not_mem_of_hasChar_false hq2 (by rw [hcd, he]; exact List.mem_cons_self _ _)
      have hplain2 : ∀ c ∈ c0 :: ct, csvPlain c = true := hcd ▸ hplain
      rw [List.cons_append, parseField, if_neg hc0, ← List.cons_append]
      rcases hrest with h | h | h
      · rw [h, List.append_nil, takeWhile_all _ _ hplain2, dropWhile_all _ _ hplain2]
      · obtain ⟨t, rfl⟩ := head_shape h
        rw [takeWhile_append_stop _ _ _ _ hplain2 (by decide),
          dropWhile_append_stop _ _ _ _ hplain2 (by decide)]
      · obtain ⟨t, rfl⟩ := head_shape h
        rw [takeWhile_append_stop _ _ _ _ hplain2 (by decide),
          dropWhile_append_stop _ _ _ _ hplain2 (by decide)]

lemma parseRecord_cells : ∀ (cells : List String) (rest : List Char) (fuel : Nat),
    cells ≠ [] →
    (∀ c ∈ cells, '\n' ∉ c.data) →
    (rest = [] ∨ rest.head? = some '\n') →
    cells.length ≤ fuel →
    parseRecord fuel ((joinSep "," (cells.map escapeStr)).data ++ rest)
      = some (cells, rest) := by
  intro cells
  induction cells with
  | nil => exact fun rest fuel hne _ _ _ => absurd rfl hne
  | cons c cs ih =>
    intro rest fuel hne hnl hrest hfuel
    have hnlc : '\n' ∉ c.data := hnl c (List.mem_cons_self c cs)
    cases fuel with
    | zero => simp at hfuel
    | succ f =>
      cases cs with
      | nil =>
        show parseRecord (f + 1) ((escapeStr c).data ++ rest) = some ([c], rest)
        rw [parseRecord, parseField_escaped c rest hnlc (hrest.imp id Or.inr)]
        have hni : ¬ rest.head? = some ',' := by
          rcases hrest with h | h <;> rw [h] <;> simp
        simp only [Option.some_bind]
        rw [if_neg hni]
      | cons c2 cs2 =>
        set J := (joinSep "," ((c2 :: cs2).map escapeStr)).data with hJ
        have hdata : (joinSep "," ((c :: c2 :: cs2).map escapeStr)).data ++ rest
            = (escapeStr c).data ++ (',' :: (J ++ rest)) := by
          rw [List.map_cons, List.map_cons, joinSep_cons2, data_append, data_append, hJ,
            ← List.map_cons]
          simp [List.append_assoc]
        rw [hdata, parseRecord,
          parseField_escaped c (',' :: (J ++ rest)) hnlc (Or.inr (Or.inl rfl))]
        simp only [Option.some_bind, List.head?_cons, List.tail_cons]
        rw [if_pos trivial,
          ih rest f (List.cons_ne_nil c2 cs2)
            (fun x hx => hnl x (List.mem_cons_of_mem c hx)) hrest
            (by simp at hfuel ⊢; omega)]
        rfl

lemma parseCsv_rows : ∀ (rows : List (List String)) (rf fuel : Nat),
    rows ≠ [] →
    (∀ row ∈ rows, 2 ≤ row.length ∧ row.length ≤ rf ∧ ∀ c ∈ row, '\n' ∉ c.data) →
    rows.length ≤ fuel →
    parseCsv rf fuel
      ((joinSep "\n" (rows.map fun row => joinSep "," (row.map escapeStr))).data)
      = some rows := by
  intro rows
  induction rows with
  | nil => exact fun rf fuel hne _ _ => absurd rfl hne
  | cons row rs ih =>
    intro rf fuel hne hrow hfuel
    obtain ⟨hlen2, hlenrf, hnlr⟩ := hrow row (List.mem_cons_self row rs)
    obtain ⟨a, b, t, rfl⟩ : ∃ a b t, row = a :: b :: t := by
      cases row with
      | nil => simp at hlen2
      | cons a r1 =>
        cases r1 with
        | nil => simp at hlen2
        | cons b t => exact ⟨a, b, t, rfl⟩
    have hrowdata : (joinSep "," ((a :: b :: t).map escapeStr)).data
        = (escapeStr a).data ++ (',' :: (joinSep "," ((b :: t).map escapeStr)).data) := by
      rw [List.map_cons, List.map_cons, joinSep_cons2, data_append, data_append,
        ← List.map_cons]
      simp [List.append_assoc]
    cases fuel with
    | zero => simp at hfuel
    | succ f =>
      cases rs with
      | nil =>
        show parseCsv rf (f + 1) ((joinSep "," ((a :: b :: t).map escapeStr)).data)
          = some [a :: b :: t]
        rw [parseCsv]
        have hne2 : ¬ ((joinSep "," ((a :: b :: t).map escapeStr)).data.isEmpty = true) := by
          rw [hrowdata]
          simp
        rw [if_neg hne2]
        have hpr := parseRecord_cells (a :: b :: t) [] rf (List.cons_ne_nil _ _) hnlr
          (Or.inl rfl) hlenrf
        rw [List.append_nil] at hpr
        rw [hpr]
        simp
      | cons row2 rs2 =>
        have hmapc : ((a :: b :: t) :: row2 :: rs2).map
              (fun row => joinSep "," (row.map escapeStr))
            = joinSep "," ((a :: b :: t).map escapeStr)
              :: joinSep "," (row2.map escapeStr)
              :: rs2.map (fun row => joinSep "," (row.map escapeStr)) := rfl
        have hmapc2 : (row2 :: rs2).map (fun row => joinSep "," (row.map escapeStr))
            = joinSep "," (row2.map escapeStr)
              :: rs2.map (fun row => joinSep "," (row.map escapeStr)) := rfl
        have hdata2 :
            (joinSep "\n" (((a :: b :: t) :: row2 :: rs2).map
              fun row => joinSep "," (row.map escapeStr))).data
            = (joinSep "," ((a :: b :: t).map escapeStr)).data
              ++ ('\n' :: (joinSep "\n" ((row2 :: rs2).map
                    fun row => joinSep "," (row.map escapeStr))).data) := by
          rw [hmapc, joinSep_cons2, data_append, data_append, ← hmapc2]
          simp [List.append_assoc]
        rw [hdata2, parseCsv]
        have hne2 : ¬ (((joinSep "," ((a :: b :: t).map escapeStr)).data
            ++ ('\n' :: (joinSep "\n" ((row2 :: rs2).map
                  fun row => joinSep "," (row.map escapeStr))).data)).isEmpty = true) := by
          simp
        rw [if_neg hne2]
        rw [parseRecord_cells (a :: b :: t)
          ('\n' :: (joinSep "\n" ((row2 :: rs2).map
            fun row => joinSep "," (row.map escapeStr))).data)
          rf (List.cons_ne_nil _ _) hnlr (Or.inr rfl) hlenrf]
        simp only [Option.some_bind, List.head?_cons, List.tail_cons]
        rw [if_neg (by simp), if_pos trivial,
          ih rf f (List.cons_ne_nil row2 rs2)
            (fun r hr => hrow r (List.mem_cons_of_mem _ hr))
            (by simp at hfuel ⊢; omega)]
        rfl

lemma joinSep_data_len (sep x : String) (l : List String) (hsep : 1 ≤ sep.data.length) :
    x.data.length + l.length ≤ (joinSep sep (x :: l)).data.length := by
  induction l generalizing x with
  | nil => simp [joinSep]
  | cons y t ih =>
    rw [joinSep_cons2, data_append, data_append]
    have h2 := ih y
    simp only [List.length_append, List.length_cons]
    omega

/-! ## The claims -/

/-- Claim C3: if the cleaned text contains a comma, `parseCoordinates` splits
on commas, parses each segment with `parseFloat`, discards failures, yields
absent when no segment parses and otherwise the arithmetic mean of the parsed
segments rounded to 6 decimal places. -/
theorem parseCoordinates_comma_mean (s : String) (ps : List ℚ)
    (hc : hasChar (cleanedOf s) ',' = true)
    (hps : (jsSplit ',' (cleanedOf s)).filterMap jsParseFloat = ps) :
    parseCoordinates (CoordInput.str s) =
      if ps.length = 0 then none
      else some (round6 (ps.sum / (ps.length : ℚ))) := by
  have hs : s ≠ "" := fun he => ne_empty_of_hasChar hc (by rw [he]; rfl)
  simp only [parseCoordinates, if_neg hs, if_pos hc, hps]

/-- Claim C3, witness: `"10, 20, 30"` takes the comma branch and yields 20. -/
theorem parseCoordinates_comma_mean_witness :
    (hasChar (cleanedOf "10, 20, 30") ',' = true ∧
      (jsSplit ',' (cleanedOf "10, 20, 30")).filterMap jsParseFloat
        = [((10 : ℕ) : ℚ), ((20 : ℕ) : ℚ), ((30 : ℕ) : ℚ)]) ∧
    parseCoordinates (CoordInput.str "10, 20, 30") = some 20 := by
  refine ⟨⟨by decide, rfl⟩, ?_⟩
  rw [parseCoordinates_comma_mean "10, 20, 30"
    [((10 : ℕ) : ℚ), ((20 : ℕ) : ℚ), ((30 : ℕ) : ℚ)] (by decide) rfl]
  norm_num [round6, round_eq]

/-- Claim C4: if the cleaned text contains no comma, contains a hyphen and
does not start with one, and exactly two hyphen-separated segments parse as
floats, `parseCoordinates` returns their mean rounded to 6 decimal places. -/
theorem parseCoordinates_hyphen_range_mean (s : String) (a b : ℚ)
    (h1 : hasChar (cleanedOf s) ',' = false)
    (h2 : hasChar (cleanedOf s) '-' = true)
    (h3 : startsWithChar (cleanedOf s) '-' = false)
    (hab : (jsSplit '-' (cleanedOf s)).filterMap jsParseFloat = [a, b]) :
    parseCoordinates (CoordInput.str s) = some (round6 ((a + b) / 2)) := by
  have hs : s ≠ "" := fun he => ne_empty_of_hasChar h2 (by rw [he]; rfl)
  simp only [parseCoordinates, if_neg hs, h1, h2, h3, hab]
  norm_num

/-- Claim C4, witness: `"10.5-12.5"` takes the range branch and yields 11.5. -/
theorem parseCoordinates_hyphen_range_mean_witness :
    (hasChar (cleanedOf "10.5-12.5") ',' = false ∧
      hasChar (cleanedOf "10.5-12.5") '-' = true ∧
      startsWithChar (cleanedOf "10.5-12.5") '-' = false ∧
      (jsSplit '-' (cleanedOf "10.5-12.5")).filterMap jsParseFloat
        = [(10.5 : ℚ), (12.5 : ℚ)]) ∧
    parseCoordinates (CoordInput.str "10.5-12.5") = some (11.5 : ℚ) := by
  have hab : (jsSplit '-' (cleanedOf "10.5-12.5")).filterMap jsParseFloat
      = [(10.5 : ℚ), (12.5 : ℚ)] := by
    rw [show (jsSplit '-' (cleanedOf "10.5-12.5")).filterMap jsParseFloat
      = [((10 : ℕ) : ℚ) + ((5 : ℕ) : ℚ) / (10 : ℚ) ^ 1,
         ((12 : ℕ) : ℚ) + ((5 : ℕ) : ℚ) / (10 : ℚ) ^ 1] from rfl]
    norm_num
  refine ⟨⟨by decide, by decide, by decide, hab⟩, ?_⟩
  rw [parseCoordinates_hyphen_range_mean "10.5-12.5" (10.5 : ℚ) (12.5 : ℚ)
    (by decide) (by decide) (by decide) hab]
  norm_num [round6, round_eq]

/-- Claim C5: when the cleaned text starts with a hyphen and contains no
comma, the range branch is skipped and the whole cleaned text is parsed as a
single (negative) float. -/
theorem parseCoordinates_leading_hyphen_single (s : String)
    (h1 : startsWithChar (cleanedOf s) '-' = true)
    (h2 : hasChar (cleanedOf s) ',' = false) :
    parseCoordinates (CoordInput.str s) = jsParseFloat (cleanedOf s) := by
  have hs : s ≠ "" := fun he => ne_empty_of_startsWithChar h1 (by rw [he]; rfl)
  simp only [parseCoordinates, if_neg hs, h1, h2]
  norm_num

/-- Claim C5, witness: `"-10.5"` parses as the single number `-10.5`. -/
theorem parseCoordinates_leading_hyphen_single_witness :
    (startsWithChar (cleanedOf "-10.5") '-' = true ∧
      hasChar (cleanedOf "-10.5") ',' = false) ∧
    parseCoordinates (CoordInput.str "-10.5") = some (-10.5 : ℚ) := by
  refine ⟨⟨by decide, by decide⟩, ?_⟩
  rw [parseCoordinates_leading_hyphen_single "-10.5" (by decide) (by decide)]
  rw [show jsParseFloat (cleanedOf "-10.5")
    = some (-(((10 : ℕ) : ℚ) + ((5 : ℕ) : ℚ) / (10 : ℚ) ^ 1)) from rfl]
  norm_num

/-- Claim C1, counterexample: `"10-20-30"` does NOT yield absent — the
whole-string `parseFloat` fallback succeeds on the leading numeric prefix,
returning 10. -/
theorem parseCoordinates_multi_hyphen_not_absent :
    parseCoordinates (CoordInput.str "10-20-30") = some 10 ∧
    parseCoordinates (CoordInput.str "10-20-30") ≠ none := by
  have he : parseCoordinates (CoordInput.str "10-20-30") = some 10 := by
    have hs : ("10-20-30" : String) ≠ "" := by decide
    have h1 : hasChar (cleanedOf "10-20-30") ',' = false := by decide
    have h2 : hasChar (cleanedOf "10-20-30") '-' = true := by decide
    have h3 : startsWithChar (cleanedOf "10-20-30") '-' = false := by decide
    have hlen : ((jsSplit '-' (cleanedOf "10-20-30")).filterMap jsParseFloat).length = 3 := by
      decide
    simp only [parseCoordinates, if_neg hs, h1, h2, h3, hlen]
    norm_num
    rw [show jsParseFloat (cleanedOf "10-20-30") = some ((10 : ℕ) : ℚ) from rfl]
    norm_num
  exact ⟨he, by rw [he]; exact Option.noConfusion⟩

/-- Claim C1 (amended): when the cleaned text has no comma, does not start
with a hyphen, and three or more hyphen-separated segments parse as floats,
`parseCoordinates` falls through the range branch to whole-string
`parseFloat` of the cleaned text (which succeeds on the leading numeric
prefix rather than yielding absent). -/
theorem parseCoordinates_multi_hyphen_falls_to_parseFloat (s : String)
    (h1 : hasChar (cleanedOf s) ',' = false)
    (h2 : hasChar (cleanedOf s) '-' = true)
    (h3 : startsWithChar (cleanedOf s) '-' = false)
    (h4 : 3 ≤ ((jsSplit '-' (cleanedOf s)).filterMap jsParseFloat).length) :
    parseCoordinates (CoordInput.str s) = jsParseFloat (cleanedOf s) := by
  have hs : s ≠ "" := fun he => ne_empty_of_hasChar h2 (by rw [he]; rfl)
  have hne : ¬ ((jsSplit '-' (cleanedOf s)).filterMap jsParseFloat).length = 2 := by omega
  simp only [parseCoordinates, if_neg hs, h1, h2, h3, if_neg hne]
  norm_num [hne]

/-- Claim C1, witness: the amended behavior at `"10-20-30"`: the fall-through
parse returns the leading part 10. -/
theorem parseCoordinates_multi_hyphen_falls_to_parseFloat_witness :
    (hasChar (cleanedOf "10-20-30") ',' = false ∧
      hasChar (cleanedOf "10-20-30") '-' = true ∧
      startsWithChar (cleanedOf "10-20-30") '-' = false ∧
      3 ≤ ((jsSplit '-' (cleanedOf "10-20-30")).filterMap jsParseFloat).length) ∧
    parseCoordinates (CoordInput.str "10-20-30") = some 10 := by
  refine ⟨⟨by decide, by decide, by decide, by decide⟩, ?_⟩
  rw [parseCoordinates_multi_hyphen_falls_to_parseFloat "10-20-30"
    (by decide) (by decide) (by decide) (by decide)]
  rw [show jsParseFloat (cleanedOf "10-20-30") = some ((10 : ℕ) : ℚ) from rfl]
  norm_num

/-- Claim C6: `parseCoordinates` is a total function: for every input
(absent, null, any number, or any string) it returns either a number or
absent, and the listed malformed inputs all yield absent. -/
theorem parseCoordinates_never_raises :
    (∀ v : CoordInput, parseCoordinates v = none ∨ ∃ q : ℚ, parseCoordinates v = some q) ∧
    parseCoordinates CoordInput.undef = none ∧
    parseCoordinates CoordInput.null = none ∧
    parseCoordinates (CoordInput.str "") = none ∧
    parseCoordinates (CoordInput.str "abc") = none ∧
    (∀ q : ℚ, parseCoordinates (CoordInput.num q) = some q) := by
  refine ⟨fun v => ?_, rfl, rfl, by decide, by decide, fun q => rfl⟩
  cases hv : parseCoordinates v with
  | none => exact Or.inl rfl
  | some q => exact Or.inr ⟨q, rfl⟩

/-! ## The CSV exporter (`exportToCSV` in `src/utils/cleaners.ts`) -/

set_option maxRecDepth 8192 in
/-- Claim C7: for every non-empty record list the first line of the produced
CSV is exactly the 33 fixed header names joined by commas, independent of the
records. -/
theorem csvContent_header_line (data : List ProcessedPaper) (hne : data ≠ []) :
    firstLine (csvContent data) =
      "Year,Authors,Title,Journal,Open_Access,Scale,Continent,Country,Longitude,Latitude,Sampling_Year,Sampling_Design,Sampling_Depth,Soil_Status,LULC,Spectrometer,Spectral_Region,Spectral_Range_Val,Spectral_Library,Spectral_Preprocessing,Transfer_Learning,Target_Property,No_Samples_Cal,No_Samples_Val,Split_Method,Variable_Selection,Calibration_Model,Auxiliary_Predictors,Validation_Type,R2,RMSE,RPIQ,r" ∧
    headers.length = 33 := by
  refine ⟨?_, by decide⟩
  obtain ⟨p, t, rfl⟩ : ∃ p t, data = p :: t := by
    cases data with
    | nil => exact absurd rfl hne
    | cons p t => exact ⟨p, t, rfl⟩
  show firstLine (joinSep "\n" (joinSep "," headers :: (p :: t).map rowLine)) = _
  rw [List.map_cons, joinSep_cons2, firstLine_append _ _ (by decide)]
  decide

/-- Claim C7, witness: a one-record list has that exact header line. -/
theorem csvContent_header_line_witness :
    ([({} : ProcessedPaper)] : List ProcessedPaper) ≠ [] ∧
    firstLine (csvContent [({} : ProcessedPaper)]) =
      "Year,Authors,Title,Journal,Open_Access,Scale,Continent,Country,Longitude,Latitude,Sampling_Year,Sampling_Design,Sampling_Depth,Soil_Status,LULC,Spectrometer,Spectral_Region,Spectral_Range_Val,Spectral_Library,Spectral_Preprocessing,Transfer_Learning,Target_Property,No_Samples_Cal,No_Samples_Val,Split_Method,Variable_Selection,Calibration_Model,Auxiliary_Predictors,Validation_Type,R2,RMSE,RPIQ,r" := by
  have h : ([({} : ProcessedPaper)] : List ProcessedPaper) ≠ [] := by simp
  exact ⟨h, (csvContent_header_line [{}] h).1⟩

/-- Claim C8: every emitted row consists, field by field in header order, of
exactly the spec's escaped cells, and the spec's quoting example holds. -/
theorem rowLine_escaping :
    (∀ p : ProcessedPaper,
      rowLine p = joinSep "," (headers.map fun f => specCellOf (getField p f))) ∧
    csvCell (some (JsVal.str "A \"Test\" Study")) = "\"A \"\"Test\"\" Study\"" ∧
    csvCell (some (JsVal.str "Smith, J.")) = "\"Smith, J.\"" ∧
    csvCell none = "" := by
  exact ⟨fun p => rfl, by decide, by decide, rfl⟩

/-- Claim C9: with an absent or empty record list, `exportToCSV` produces no
document at all (no header-only file, no write). -/
theorem exportToCSV_empty_is_noop (filename : String) :
    exportToCSV none filename = none ∧ exportToCSV (some []) filename = none :=
  ⟨rfl, rfl⟩

/-- Claim C10: the produced CSV text depends only on the 33 schema fields:
record lists that agree field-wise on every header name (but may differ in
`id`, `rawText`) produce identical CSV text. -/
theorem csvContent_depends_only_on_schema_fields (d1 d2 : List ProcessedPaper)
    (h : List.Forall₂ (fun p q => ∀ f ∈ headers, getField p f = getField q f) d1 d2) :
    csvContent d1 = csvContent d2 := by
  unfold csvContent
  have hmap : d1.map rowLine = d2.map rowLine := by
    induction h with
    | nil => rfl
    | cons hpq hrest ih =>
      simp only [List.map_cons, ih, List.cons.injEq, and_true]
      unfold rowLine
      exact congrArg _ (List.map_congr_left fun f hf => congrArg csvCell (hpq f hf))
  rw [hmap]

/-- Claim C10, witness: two records sharing all 33 schema fields but with
different `id`/`rawText` export identically. -/
theorem csvContent_depends_only_on_schema_fields_witness :
    List.Forall₂ (fun p q => ∀ f ∈ headers, getField p f = getField q f) [paperA] [paperB] ∧
    csvContent [paperA] = csvContent [paperB] := by
  have h : List.Forall₂ (fun p q => ∀ f ∈ headers, getField p f = getField q f)
      [paperA] [paperB] :=
    List.Forall₂.cons (by decide) List.Forall₂.nil
  exact ⟨h, csvContent_depends_only_on_schema_fields _ _ h⟩

/-! ## An RFC-4180 CSV reader, and the export round-trip -/

set_option maxRecDepth 100000 in
/-- Claim C2, counterexample: the exporter leaves a line break inside a field
unquoted, so a standard RFC-4180 reader does not recover the records: for a
record whose `Title` is `"Line1\nLine2"` the parse yields three rows, not the
header row plus one field row. -/
theorem csv_roundtrip_fails_on_newline :
    rfcParseCsv (csvContent [paperNl]) ≠
      some [headers, headers.map fun f => reprOf paperNl f] := by
  intro h
  have h3 : (rfcParseCsv (csvContent [paperNl])).map List.length = some 3 := by decide
  rw [h] at h3
  simp at h3

set_option maxRecDepth 8192 in
/-- Claim C2 (amended): provided no field's string representation contains a
CR or LF character, parsing the produced CSV text with the RFC-4180 reader
recovers the header row and, for each record in order, the string
representations of its 33 header fields (absent fields as the empty
string). -/
theorem csv_roundTrip (data : List ProcessedPaper) (_hne : data ≠ [])
    (hok : ∀ p ∈ data, ∀ f ∈ headers,
      '\n' ∉ (reprOf p f).data ∧ '\r' ∉ (reprOf p f).data) :
    rfcParseCsv (csvContent data) =
      some (headers :: data.map fun p => headers.map fun f => reprOf p f) := by
  have hheader : joinSep "," headers = joinSep "," (headers.map escapeStr) := by decide
  have hrowl : ∀ p : ProcessedPaper,
      rowLine p = joinSep "," ((headers.map fun f => reprOf p f).map escapeStr) := by
    intro p
    unfold rowLine
    rw [List.map_map]
    apply congrArg
    apply List.map_congr_left
    intro f hf
    show csvCell (getField p f) = escapeStr (reprOf p f)
    exact csvCell_getField p f
  have hcontent : csvContent data
      = joinSep "\n" ((headers :: data.map fun p => headers.map fun f => reprOf p f).map
          fun row => joinSep "," (row.map escapeStr)) := by
    unfold csvContent
    rw [List.map_cons, List.map_map]
    congr 1
    rw [hheader]
    congr 1
    apply List.map_congr_left
    intro p hp
    exact hrowl p
  rw [hcontent]
  unfold rfcParseCsv
  have hmc : ((headers :: data.map fun p => headers.map fun f => reprOf p f).map
        fun row => joinSep "," (row.map escapeStr))
      = joinSep "," (headers.map escapeStr)
        :: ((data.map fun p => headers.map fun f => reprOf p f).map
          fun row => joinSep "," (row.map escapeStr)) := rfl
  have hbound : 33 + data.length
      ≤ (joinSep "\n" ((headers :: data.map fun p => headers.map fun f => reprOf p f).map
          fun row => joinSep "," (row.map escapeStr))).data.length := by
    rw [hmc]
    have h1 := joinSep_data_len "\n" (joinSep "," (headers.map escapeStr))
      ((data.map fun p => headers.map fun f => reprOf p f).map
        fun row => joinSep "," (row.map escapeStr)) (by decide)
    have h2 : 33 ≤ (joinSep "," (headers.map escapeStr)).data.length := by decide
    have h3 : ((data.map fun p => headers.map fun f => reprOf p f).map
        fun row => joinSep "," (row.map escapeStr)).length = data.length := by
      rw [List.length_map, List.length_map]
    omega
  apply parseCsv_rows
  · exact List.cons_ne_nil _ _
  · intro row hrowm
    rcases List.mem_cons.mp hrowm with h | h
    · subst h
      refine ⟨by decide, ?_, by decide⟩
      have h4 : headers.length = 33 := by decide
      omega
    · obtain ⟨p, hp, rfl⟩ := List.mem_map.mp h
      refine ⟨?_, ?_, ?_⟩
      · rw [List.length_map]
        decide
      · rw [List.length_map]
        have h4 : headers.length = 33 := by decide
        omega
      · intro c hc
        obtain ⟨f, hf, rfl⟩ := List.mem_map.mp hc
        exact (hok p hp f hf).1
  · rw [List.length_cons, List.length_map]
    omega

set_option maxRecDepth 100000 in
/-- Claim C2, witness: for a one-record list with newline-free fields, the
reader recovers the header row and the record's 33 field representations. -/
theorem csv_roundTrip_witness :
    (([paperW] : List ProcessedPaper) ≠ [] ∧
      ∀ p ∈ ([paperW] : List ProcessedPaper), ∀ f ∈ headers,
        '\n' ∉ (reprOf p f).data ∧ '\r' ∉ (reprOf p f).data) ∧
    rfcParseCsv (csvContent [paperW]) =
      some (headers :: [paperW].map fun p => headers.map fun f => reprOf p f) := by
  have h1 : ([paperW] : List ProcessedPaper) ≠ [] := by simp
  have h2 : ∀ p ∈ ([paperW] : List ProcessedPaper), ∀ f ∈ headers,
      '\n' ∉ (reprOf p f).data ∧ '\r' ∉ (reprOf p f).data := by decide
  exact ⟨⟨h1, h2⟩, csv_roundTrip [paperW] h1 h2⟩
